import Mathlib

/-!
Shallow embedding of `src/gpio_calculator.py` (class `RockchipGPIOCalculator`).

Python strings are modelled as Lean `String` (in this toolchain a `String` is a
structure holding a `List Char`), Python's unbounded `int` as `Int` (and as `Nat`
where the source guarantees non-negativity), and a raised `ValueError` as the
`Except.error` branch of `Except String _`, carrying the exact message the source
builds.  The Python builtins used by the source (`str.split`, `str.replace`,
`int(...)`, `str.upper`, `ord`, `chr`, f-string decimal formatting and the
`:08X` hex format) are modelled by the `py*` / digit functions below; the models
are faithful for strings of ASCII characters (Python's `int` and `str.upper`
additionally handle non-ASCII Unicode digits/case-mappings, which no claim
exercises, and Python's `chr` also accepts the UTF-16 surrogate range that a
Lean `Char` cannot represent).
-/

/-- The codec configuration, from `RockchipGPIOCalculator.__init__`
(`gpio_bank_size=32, gpio_group_size=8`).  The spec's data-model invariant
requires both sizes to be positive. -/
structure RockchipGPIOCalculator where
  gpio_bank_size : Nat := 32
  gpio_group_size : Nat := 8

/-- The calculator the CLI constructs: both parameters left at their defaults. -/
def defaultCalc : RockchipGPIOCalculator := {}

/-- Python `str.split(sep)` for a single-character separator, on the character
list of the string: `"a_b".split('_') == ["a","b"]`, `"".split('_') == [""]`,
`"a__b".split('_') == ["a","","b"]`. -/
def pySplit (sep : Char) : List Char → List (List Char)
  | [] => [[]]
  | c :: rest =>
    if c = sep then [] :: pySplit sep rest
    else
      match pySplit sep rest with
      | [] => [[c]]
      | h :: t => (c :: h) :: t

/-- Python `s.replace("GPIO", "")`: removes every non-overlapping occurrence of
the substring `"GPIO"`, scanning left to right. -/
def dropGPIOall : List Char → List Char
  | 'G' :: 'P' :: 'I' :: 'O' :: rest => dropGPIOall rest
  | c :: rest => c :: dropGPIOall rest
  | [] => []

/-- The ASCII decimal-digit test used when modelling Python's `int(...)`. -/
def isDigitChar (c : Char) : Bool := decide (48 ≤ c.toNat ∧ c.toNat ≤ 57)

/-- The ASCII whitespace characters stripped by Python's `int(...)`
(space, tab, newline, vertical tab, form feed, carriage return). -/
def isWS (c : Char) : Bool :=
  decide (c.toNat = 32 ∨ c.toNat = 9 ∨ c.toNat = 10 ∨ c.toNat = 11 ∨ c.toNat = 12 ∨ c.toNat = 13)

/-- Strip leading and trailing whitespace, as Python's `int(...)` does before
parsing. -/
def pyStrip (l : List Char) : List Char :=
  (List.dropWhile isWS (List.dropWhile isWS l).reverse).reverse

/-- After the first digit, Python's `int(...)` accepts digits optionally
separated by single underscores (no leading/trailing/double underscore). -/
def digitsGroups : List Char → Bool
  | [] => true
  | c :: rest =>
    if c = '_' then
      match rest with
      | [] => false
      | c2 :: rest2 => isDigitChar c2 && digitsGroups rest2
    else isDigitChar c && digitsGroups rest

/-- The numeric value of a list of ASCII decimal digits (most significant
first); underscore separators must be filtered out before applying it. -/
def digitsVal (l : List Char) : Nat :=
  l.foldl (fun a c => a * 10 + (c.toNat - 48)) 0

/-- The unsigned-body part of Python's `int(...)`: at least one digit, then
digit groups, value of the digits with underscores removed. -/
def pyIntDigits : List Char → Option Nat
  | [] => none
  | c :: rest =>
    if isDigitChar c && digitsGroups rest then
      some (digitsVal (List.filter (fun x => !(x == '_')) (c :: rest)))
    else none

/-- Python's `int(s)` on a base-10 string: strip whitespace, optional single
sign, digit body.  Returns `none` where Python raises `ValueError`. -/
def pyInt (l : List Char) : Option Int :=
  match pyStrip l with
  | [] => none
  | c :: rest =>
    if c = '+' then (pyIntDigits rest).map (fun n => (n : Int))
    else if c = '-' then (pyIntDigits rest).map (fun n => -(n : Int))
    else (pyIntDigits (c :: rest)).map (fun n => (n : Int))

/-- Python's `str.upper()` restricted to a single character: ASCII lowercase
letters map to uppercase, everything else is unchanged. -/
def pyUpper (c : Char) : Char :=
  if h : 97 ≤ c.toNat ∧ c.toNat ≤ 122 then
    Char.ofNatAux (c.toNat - 32) (Or.inl (by omega))
  else c

/-- Python's `chr(n)`, on the codepoints a Lean `Char` can hold; `none` models
the `ValueError` raised for `n ≥ 0x110000` (the surrogate range, which Python
accepts but Lean cannot represent, is unreachable in every claim). -/
def chr (n : Nat) : Option Char :=
  if h : n.isValidChar then some (Char.ofNatAux n h) else none

/-- The character Python's decimal formatting uses for the digit `d` (`d < 10`). -/
def digitChar (d : Nat) : Char := Char.ofNat (48 + d)

/-- The character Python's `X` (uppercase hex) formatting uses for `d < 16`. -/
def hexDigitChar (d : Nat) : Char :=
  if d < 10 then Char.ofNat (48 + d) else Char.ofNat (55 + d)

/-- Most-significant-first digits of `n` in base `b`, written with `dchar`,
with explicit recursion fuel (`fuel > n` suffices).  With `b = 10` and
`dchar = digitChar` this is exactly Python's decimal formatting of a
non-negative integer. -/
def toBaseDigits (b : Nat) (dchar : Nat → Char) : Nat → Nat → List Char
  | 0, _ => []
  | fuel + 1, n =>
    if n < b then [dchar n]
    else toBaseDigits b dchar fuel (n / b) ++ [dchar (n % b)]

/-- Python's decimal formatting of a non-negative integer (`f"{n}"`). -/
def natToDigits (n : Nat) : List Char := toBaseDigits 10 digitChar (n + 1) n

/-- Python's uppercase hex digits of a non-negative integer (`f"{n:X}"`). -/
def natToHexDigits (n : Nat) : List Char := toBaseDigits 16 hexDigitChar (n + 1) n

/-- Python's `f"0x{n:08X}"`: `"0x"`, then the uppercase hex digits zero-padded
on the left to a minimum width of 8 (wider values are printed in full). -/
def fmt08X (n : Nat) : String :=
  String.mk ('0' :: 'x' :: (List.replicate (8 - (natToHexDigits n).length) '0' ++ natToHexDigits n))

/-- The `ValueError` message built on line 28 of the source. -/
def invalidNameMsg (gpio_name : String) : String :=
  "Invalid GPIO name format: " ++ gpio_name ++ ". Expected format: GPIO<bank>_<group><pin> (e.g., GPIO0_A3)"

/-- The `ValueError` message raised by `gpio_number_to_name` and
`calculate_gpio_info` for a negative argument. -/
def negativeMsg : String := "GPIO number must be a positive integer."

/-- The body of the `try:` block of `gpio_name_to_number` after the split
succeeded with exactly two parts (source lines 18-26): parse the bank from the
bank part with all `"GPIO"` occurrences removed, take the first character of
the pin part as the group (`none` models the `IndexError` on an empty part),
parse the remainder as the pin, and combine.  `none` is any caught exception. -/
def parseParts (cfg : RockchipGPIOCalculator) (bank_part pin_part : List Char) : Option Int :=
  match pyInt (dropGPIOall bank_part) with
  | none => none
  | some bank =>
    match pin_part with
    | [] => none
    | group :: rest =>
      match pyInt rest with
      | none => none
      | some pin =>
        some (bank * (cfg.gpio_bank_size : Int)
          + (((pyUpper group).toNat : Int) - 65) * (cfg.gpio_group_size : Int) + pin)

/-- `RockchipGPIOCalculator.gpio_name_to_number` (source lines 8-28): split on
`'_'` (the two-target unpacking raises unless there are exactly two parts),
parse both parts, and return the computed number; every caught exception
becomes the single `ValueError` with the message of line 28. -/
def gpio_name_to_number (cfg : RockchipGPIOCalculator) (gpio_name : String) : Except String Int :=
  match pySplit '_' gpio_name.data with
  | [bank_part, pin_part] =>
    match parseParts cfg bank_part pin_part with
    | some v => .ok v
    | none => .error (invalidNameMsg gpio_name)
  | _ => .error (invalidNameMsg gpio_name)

/-- `RockchipGPIOCalculator.gpio_number_to_name` (source lines 30-54).  The
negative check is line 37-38; `chr(ord('A') + group_index)` is line 49 (its
`none` branch is the uncaught `ValueError` Python's `chr` raises for
codepoints at or above `0x110000`). -/
def gpio_number_to_name (cfg : RockchipGPIOCalculator) (gpio_number : Int) : Except String String :=
  if gpio_number < 0 then .error negativeMsg
  else
    let num := gpio_number.toNat
    let bank := num / cfg.gpio_bank_size
    let pin_in_bank := num % cfg.gpio_bank_size
    let group_index := pin_in_bank / cfg.gpio_group_size
    let pin_in_group := pin_in_bank % cfg.gpio_group_size
    match chr (65 + group_index) with
    | some group =>
      .ok (String.mk (('G' :: 'P' :: 'I' :: 'O' :: natToDigits bank)
        ++ '_' :: group :: natToDigits pin_in_group))
    | none => .error "chr() arg not in range(0x110000)"

/-- The dictionary returned by `calculate_gpio_info` (source lines 73-79). -/
structure GPIOInfo where
  gpio_number : Nat
  gpio_bank : Nat
  pin_number : Nat
  register_offset_hex : String
  register_offset_dec : Nat
deriving DecidableEq

/-- `RockchipGPIOCalculator.calculate_gpio_info` (source lines 56-79). -/
def calculate_gpio_info (cfg : RockchipGPIOCalculator) (gpio_number : Int) : Except String GPIOInfo :=
  if gpio_number < 0 then .error negativeMsg
  else
    .ok { gpio_number := gpio_number.toNat
        , gpio_bank := gpio_number.toNat / cfg.gpio_bank_size
        , pin_number := gpio_number.toNat % cfg.gpio_bank_size
        , register_offset_hex := fmt08X (gpio_number.toNat * 4)
        , register_offset_dec := gpio_number.toNat * 4 }

/-- The spec's `formatName(bank, group, pin)`: the string
`GPIO<bank>_<group><pin>` with both numbers in decimal. -/
def mkName (bank : Nat) (g : Char) (pin : Nat) : String :=
  String.mk (('G' :: 'P' :: 'I' :: 'O' :: natToDigits bank) ++ '_' :: g :: natToDigits pin)

/-- A single ASCII letter, in either case (the groups the spec's grammar
allows). -/
def isAsciiLetter (c : Char) : Prop :=
  (65 ≤ c.toNat ∧ c.toNat ≤ 90) ∨ (97 ≤ c.toNat ∧ c.toNat ≤ 122)

instance (c : Char) : Decidable (isAsciiLetter c) := by
  unfold isAsciiLetter; infer_instance

/-- The numeric value of an uppercase-hex digit character, inverse to
`hexDigitChar` on the digits `0..15`. -/
def hexCharVal (c : Char) : Nat :=
  if 65 ≤ c.toNat then c.toNat - 55 else c.toNat - 48

/-- The numeric value of a list of uppercase-hex digit characters
(most significant first). -/
def hexVal (l : List Char) : Nat :=
  l.foldl (fun a c => a * 16 + hexCharVal c) 0

/-- An ASCII character that can appear in Python's `f"{n:X}"` output:
a decimal digit or an uppercase letter `A`-`F`. -/
def isUpperHexDigit (c : Char) : Prop :=
  (48 ≤ c.toNat ∧ c.toNat ≤ 57) ∨ (65 ≤ c.toNat ∧ c.toNat ≤ 70)

instance (c : Char) : Decidable (isUpperHexDigit c) := by
  unfold isUpperHexDigit; infer_instance

/-- A string all of whose characters are ASCII.  The Python builtins modelled
here (`int(...)`, `str.upper`) are modelled faithfully only on such strings. -/
def isAllAscii (s : String) : Prop := ∀ c ∈ s.data, c.toNat < 128

instance (s : String) : Decidable (isAllAscii s) := by
  unfold isAllAscii; infer_instance

/-- The shape of strings the parser of `gpio_name_to_number` actually accepts
(the amended grammar for claim C6): exactly one underscore; removing every
occurrence of `"GPIO"` from the part before it leaves a parseable integer; the
part after it is non-empty, its first character (the group) is unrestricted,
and the rest is a parseable integer. -/
def acceptsNameShape (s : String) : Prop :=
  ∃ b p : List Char, s.data = b ++ '_' :: p ∧ '_' ∉ b ∧ '_' ∉ p ∧
    (pyInt (dropGPIOall b)).isSome ∧ p ≠ [] ∧ (pyInt p.tail).isSome

/-! ### Character and digit lemmas -/

theorem toNat_ofNatAux (n : Nat) (h : n.isValidChar) : (Char.ofNatAux n h).toNat = n := rfl

theorem char_eq_of_toNat_eq {a b : Char} (h : a.toNat = b.toNat) : a = b :=
  Char.eq_of_val_eq (UInt32.ext h)

theorem digitChar_toNat : ∀ d, d < 10 → (digitChar d).toNat = 48 + d := by decide

theorem digitVal_digitChar : ∀ d, d < 10 → (digitChar d).toNat - 48 = d := by decide

theorem hexCharVal_hexDigitChar : ∀ d, d < 16 → hexCharVal (hexDigitChar d) = d := by decide

theorem isUpperHexDigit_hexDigitChar : ∀ d, d < 16 → isUpperHexDigit (hexDigitChar d) := by decide

theorem pyUpper_of_not_lower {c : Char} (h : ¬ (97 ≤ c.toNat ∧ c.toNat ≤ 122)) :
    pyUpper c = c := by
  unfold pyUpper
  rw [dif_neg h]

theorem pyUpper_toNat_of_lower {c : Char} (h : 97 ≤ c.toNat ∧ c.toNat ≤ 122) :
    (pyUpper c).toNat = c.toNat - 32 := by
  unfold pyUpper
  rw [dif_pos h]
  exact toNat_ofNatAux _ _

/-- On ASCII letters the result of `pyUpper` is an uppercase letter whose
value is the letter's alphabet index plus 65. -/
theorem pyUpper_letter {c : Char} (h : isAsciiLetter c) :
    65 ≤ (pyUpper c).toNat ∧ (pyUpper c).toNat ≤ 90 := by
  rcases h with h | h
  · rw [pyUpper_of_not_lower (by omega)]; omega
  · rw [pyUpper_toNat_of_lower h] at *; omega

theorem chr_valid (n : Nat) (h : n.isValidChar) : chr n = some (Char.ofNatAux n h) := by
  unfold chr
  rw [dif_pos h]

/-! ### `toBaseDigits` lemmas -/

theorem toBaseDigits_val (b : Nat) (hb : 2 ≤ b) (dchar : Nat → Char) (v : Char → Nat)
    (hdv : ∀ d, d < b → v (dchar d) = d) :
    ∀ fuel n, n < fuel →
      List.foldl (fun a c => a * b + v c) 0 (toBaseDigits b dchar fuel n) = n := by
  intro fuel
  induction fuel with
  | zero => omega
  | succ f ih =>
    intro n _
    by_cases hn : n < b
    · simp only [toBaseDigits, if_pos hn, List.foldl]
      rw [hdv n hn]
      omega
    · have hdiv : n / b < f := by
        have h1 : n / b < n := Nat.div_lt_self (by omega) (by omega)
        omega
      simp only [toBaseDigits, if_neg hn]
      rw [List.foldl_append, ih (n / b) hdiv]
      simp only [List.foldl]
      rw [hdv (n % b) (Nat.mod_lt n (by omega))]
      rw [Nat.mul_comm]
      exact Nat.div_add_mod n b

theorem toBaseDigits_mem (b : Nat) (hb : 2 ≤ b) (dchar : Nat → Char) :
    ∀ fuel n, n < fuel →
      ∀ c ∈ toBaseDigits b dchar fuel n, ∃ d, d < b ∧ c = dchar d := by
  intro fuel
  induction fuel with
  | zero => omega
  | succ f ih =>
    intro n _ c hc
    by_cases hn : n < b
    · simp only [toBaseDigits, if_pos hn, List.mem_singleton] at hc
      exact ⟨n, hn, hc⟩
    · have hdiv : n / b < f := by
        have h1 : n / b < n := Nat.div_lt_self (by omega) (by omega)
        omega
      simp only [toBaseDigits, if_neg hn, List.mem_append, List.mem_singleton] at hc
      rcases hc with hc | hc
      · exact ih (n / b) hdiv c hc
      · exact ⟨n % b, Nat.mod_lt n (by omega), hc⟩

theorem toBaseDigits_ne_nil (b : Nat) (dchar : Nat → Char) :
    ∀ fuel n, n < fuel → toBaseDigits b dchar fuel n ≠ [] := by
  intro fuel n h
  cases fuel with
  | zero => omega
  | succ f =>
    by_cases hn : n < b <;> simp [toBaseDigits, hn]

theorem toBaseDigits_len_le (b : Nat) (hb : 2 ≤ b) (dchar : Nat → Char) :
    ∀ fuel k n, n < fuel → n < b ^ k → 1 ≤ k →
      (toBaseDigits b dchar fuel n).length ≤ k := by
  intro fuel
  induction fuel with
  | zero => omega
  | succ f ih =>
    intro k n _ hnk hk
    by_cases hn : n < b
    · simp [toBaseDigits, if_pos hn]
      omega
    · have hdiv : n / b < f := by
        have h1 : n / b < n := Nat.div_lt_self (by omega) (by omega)
        omega
      simp only [toBaseDigits, if_neg hn, List.length_append, List.length_singleton]
      match k with
      | 0 => omega
      | 1 =>
        rw [pow_one] at hnk
        omega
      | j + 2 =>
        have hj : n / b < b ^ (j + 1) := by
          rw [Nat.div_lt_iff_lt_mul (by omega : 0 < b)]
          calc n < b ^ (j + 2) := hnk
          _ = b ^ (j + 1) * b := by rw [pow_succ]
        have := ih (j + 1) (n / b) hdiv hj (by omega)
        omega

/-! ### Decimal digit-string lemmas -/

theorem natToDigits_ne_nil (n : Nat) : natToDigits n ≠ [] :=
  toBaseDigits_ne_nil 10 digitChar (n + 1) n (Nat.lt_succ_self n)

theorem natToDigits_bounds (n : Nat) :
    ∀ c ∈ natToDigits n, 48 ≤ c.toNat ∧ c.toNat ≤ 57 := by
  intro c hc
  obtain ⟨d, hd, rfl⟩ :=
    toBaseDigits_mem 10 (by omega) digitChar (n + 1) n (Nat.lt_succ_self n) c hc
  rw [digitChar_toNat d hd]
  omega

theorem digitsVal_natToDigits (n : Nat) : digitsVal (natToDigits n) = n :=
  toBaseDigits_val 10 (by omega) digitChar (fun c => c.toNat - 48) digitVal_digitChar
    (n + 1) n (Nat.lt_succ_self n)

/-! ### Hex digit-string lemmas -/

theorem natToHexDigits_mem (n : Nat) : ∀ c ∈ natToHexDigits n, isUpperHexDigit c := by
  intro c hc
  obtain ⟨d, hd, rfl⟩ :=
    toBaseDigits_mem 16 (by omega) hexDigitChar (n + 1) n (Nat.lt_succ_self n) c hc
  exact isUpperHexDigit_hexDigitChar d hd

theorem hexVal_natToHexDigits (n : Nat) : hexVal (natToHexDigits n) = n :=
  toBaseDigits_val 16 (by omega) hexDigitChar hexCharVal hexCharVal_hexDigitChar
    (n + 1) n (Nat.lt_succ_self n)

theorem natToHexDigits_len_le (n k : Nat) (hk : 1 ≤ k) (h : n < 16 ^ k) :
    (natToHexDigits n).length ≤ k :=
  toBaseDigits_len_le 16 (by omega) hexDigitChar (n + 1) k n (Nat.lt_succ_self n) h hk

theorem hexVal_replicate_zero (k : Nat) (l : List Char) :
    hexVal (List.replicate k '0' ++ l) = hexVal l := by
  induction k with
  | zero => simp
  | succ j ih =>
    rw [List.replicate_succ, List.cons_append]
    unfold hexVal at *
    simp only [List.foldl]
    have h0 : (0 : Nat) * 16 + hexCharVal '0' = 0 := by decide
    rw [h0]
    exact ih

/-! ### `pySplit` lemmas -/

theorem pySplit_ne_nil (sep : Char) : ∀ l : List Char, pySplit sep l ≠ [] := by
  intro l
  cases l with
  | nil => simp [pySplit]
  | cons c rest =>
    simp only [pySplit]
    by_cases h : c = sep
    · rw [if_pos h]; simp
    · rw [if_neg h]
      cases hr : pySplit sep rest <;> simp

theorem pySplit_eq_single {sep : Char} :
    ∀ {l x : List Char}, pySplit sep l = [x] ↔ (l = x ∧ sep ∉ x) := by
  intro l
  induction l with
  | nil =>
    intro x
    simp only [pySplit]
    constructor
    · intro h
      obtain ⟨h1, -⟩ := (List.cons.injEq _ _ _ _).mp h
      exact ⟨h1, h1 ▸ (by simp)⟩
    · rintro ⟨rfl, -⟩
      rfl
  | cons c rest ih =>
    intro x
    simp only [pySplit]
    by_cases h : c = sep
    · subst h
      rw [if_pos rfl]
      constructor
      · intro he
        obtain ⟨-, h2⟩ := (List.cons.injEq _ _ _ _).mp he
        exact absurd h2 (pySplit_ne_nil c rest)
      · rintro ⟨rfl, hmem⟩
        exact absurd (List.mem_cons_self c rest) hmem
    · rw [if_neg h]
      cases hr : pySplit sep rest with
      | nil => exact absurd hr (pySplit_ne_nil sep rest)
      | cons hh tt =>
        constructor
        · intro he
          obtain ⟨h1, h2⟩ := (List.cons.injEq _ _ _ _).mp he
          have h3 : pySplit sep rest = [hh] := by rw [hr, h2]
          obtain ⟨rfl, h5⟩ := ih.mp h3
          refine ⟨h1.symm ▸ rfl, ?_⟩
          rw [← h1]
          simp only [List.mem_cons]
          rintro (rfl | hm)
          · exact h rfl
          · exact h5 hm
        · rintro ⟨rfl, hmem⟩
          have h5 : sep ∉ rest := fun hm => hmem (List.mem_cons_of_mem _ hm)
          have h3 : pySplit sep rest = [rest] := ih.mpr ⟨rfl, h5⟩
          rw [hr] at h3
          obtain ⟨h6, h7⟩ := (List.cons.injEq _ _ _ _).mp h3
          rw [h6, h7]

theorem pySplit_eq_pair {sep : Char} :
    ∀ {l a b : List Char},
      pySplit sep l = [a, b] ↔ (l = a ++ sep :: b ∧ sep ∉ a ∧ sep ∉ b) := by
  intro l
  induction l with
  | nil =>
    intro a b
    constructor
    · intro h
      simp [pySplit] at h
    · rintro ⟨h, -, -⟩
      exact absurd h.symm (by simp)
  | cons c rest ih =>
    intro a b
    simp only [pySplit]
    by_cases h : c = sep
    · subst h
      rw [if_pos rfl]
      constructor
      · intro he
        obtain ⟨h1, h2⟩ := (List.cons.injEq _ _ _ _).mp he
        obtain ⟨rfl, h4⟩ := pySplit_eq_single.mp h2
        exact ⟨h1 ▸ rfl, h1 ▸ (by simp), h4⟩
      · rintro ⟨heq, ha, hb⟩
        cases a with
        | nil =>
          simp only [List.nil_append, List.cons.injEq] at heq
          have h3 : pySplit c rest = [b] := pySplit_eq_single.mpr ⟨heq.2, hb⟩
          rw [h3]
        | cons a0 a' =>
          obtain ⟨h1, -⟩ := (List.cons.injEq _ _ _ _).mp heq
          exact absurd (h1 ▸ List.mem_cons_self a0 a') ha
    · rw [if_neg h]
      cases hr : pySplit sep rest with
      | nil => exact absurd hr (pySplit_ne_nil sep rest)
      | cons hh tt =>
        constructor
        · intro he
          obtain ⟨h1, h2⟩ := (List.cons.injEq _ _ _ _).mp he
          have h3 : pySplit sep rest = [hh, b] := by rw [hr, h2]
          obtain ⟨h4, h5, h6⟩ := ih.mp h3
          refine ⟨?_, ?_, h6⟩
          · rw [← h1, h4]
            simp
          · rw [← h1]
            simp only [List.mem_cons]
            rintro (rfl | hm)
            · exact h rfl
            · exact h5 hm
        · rintro ⟨heq, ha, hb⟩
          cases a with
          | nil =>
            simp only [List.nil_append, List.cons.injEq] at heq
            exact absurd heq.1 h
          | cons a0 a' =>
            simp only [List.cons_append, List.cons.injEq] at heq
            obtain ⟨rfl, heq2⟩ := heq
            have ha' : sep ∉ a' := fun hm => ha (List.mem_cons_of_mem _ hm)
            have h3 : pySplit sep rest = [a', b] := ih.mpr ⟨heq2, ha', hb⟩
            rw [hr] at h3
            obtain ⟨h6, h7⟩ := (List.cons.injEq _ _ _ _).mp h3
            rw [h6, h7]

/-! ### `dropGPIOall` lemmas -/

theorem dropGPIOall_gpio (l : List Char) :
    dropGPIOall ('G' :: 'P' :: 'I' :: 'O' :: l) = dropGPIOall l := rfl

theorem dropGPIOall_no_G : ∀ {l : List Char}, (∀ c ∈ l, c ≠ 'G') → dropGPIOall l = l := by
  intro l
  induction l with
  | nil => intro _; rfl
  | cons c rest ih =>
    intro h
    have hc : c ≠ 'G' := h c (List.mem_cons_self c rest)
    have hrest := ih (fun x hx => h x (List.mem_cons_of_mem _ hx))
    rw [dropGPIOall.eq_def]
    split
    · rename_i heq
      obtain ⟨h1, -⟩ := (List.cons.injEq _ _ _ _).mp heq
      exact absurd h1 hc
    · rename_i hcc
      obtain ⟨rfl, rfl⟩ := (List.cons.injEq _ _ _ _).mp hcc
      rw [hrest]
    · rename_i hcc
      exact absurd hcc (by simp)

/-! ### `pyInt` lemmas -/

theorem not_sep_of_digit {c : Char} (sep : Char) (hsep : ¬ (48 ≤ sep.toNat ∧ sep.toNat ≤ 57))
    (h : 48 ≤ c.toNat ∧ c.toNat ≤ 57) : c ≠ sep := by
  intro he
  subst he
  exact hsep h

theorem dropWhile_eq_self_of_all {p : Char → Bool} :
    ∀ l : List Char, (∀ c ∈ l, p c = false) → List.dropWhile p l = l := by
  intro l h
  cases l with
  | nil => rfl
  | cons c rest =>
    rw [List.dropWhile_cons, h c (List.mem_cons_self c rest)]
    simp

theorem pyStrip_of_no_ws {l : List Char} (h : ∀ c ∈ l, isWS c = false) : pyStrip l = l := by
  unfold pyStrip
  rw [dropWhile_eq_self_of_all l h,
    dropWhile_eq_self_of_all l.reverse (fun c hc => h c (List.mem_reverse.mp hc))]
  exact List.reverse_reverse l

theorem digitsGroups_of_digits :
    ∀ l : List Char, (∀ c ∈ l, isDigitChar c = true) → digitsGroups l = true := by
  intro l
  induction l with
  | nil => intro _; rfl
  | cons c rest ih =>
    intro h
    have hc := h c (List.mem_cons_self c rest)
    have hc' : ¬ c = '_' := by
      intro he
      rw [he] at hc
      exact absurd hc (by decide)
    rw [digitsGroups.eq_def]
    dsimp only
    rw [if_neg hc', hc, ih (fun x hx => h x (List.mem_cons_of_mem _ hx))]
    rfl

theorem pyIntDigits_digits {l : List Char} (hne : l ≠ [])
    (h : ∀ c ∈ l, isDigitChar c = true) : pyIntDigits l = some (digitsVal l) := by
  cases l with
  | nil => exact absurd rfl hne
  | cons c rest =>
    simp only [pyIntDigits]
    rw [if_pos]
    · have hfilter : List.filter (fun x => !(x == '_')) (c :: rest) = c :: rest := by
        rw [List.filter_eq_self]
        intro a ha
        have := h a ha
        have ha' : ¬ a = '_' := by
          intro he
          rw [he] at this
          exact absurd this (by decide)
        simp [ha']
      rw [hfilter]
    · rw [h c (List.mem_cons_self c rest),
        digitsGroups_of_digits rest (fun x hx => h x (List.mem_cons_of_mem _ hx))]
      rfl

theorem pyInt_digits {l : List Char} (hne : l ≠ [])
    (h : ∀ c ∈ l, 48 ≤ c.toNat ∧ c.toNat ≤ 57) :
    pyInt l = some ((digitsVal l : Nat) : Int) := by
  have hd : ∀ c ∈ l, isDigitChar c = true := by
    intro c hc
    exact decide_eq_true (h c hc)
  have hws : ∀ c ∈ l, isWS c = false := by
    intro c hc
    have := h c hc
    exact decide_eq_false (by omega)
  cases l with
  | nil => exact absurd rfl hne
  | cons c rest =>
    have hc := h c (List.mem_cons_self c rest)
    unfold pyInt
    rw [pyStrip_of_no_ws hws]
    dsimp only
    rw [if_neg (not_sep_of_digit '+' (by decide) hc),
      if_neg (not_sep_of_digit '-' (by decide) hc),
      pyIntDigits_digits (by simp) hd]
    rfl

theorem pyInt_natToDigits (n : Nat) : pyInt (natToDigits n) = some ((n : Nat) : Int) := by
  rw [pyInt_digits (natToDigits_ne_nil n) (natToDigits_bounds n), digitsVal_natToDigits]

/-! ### Core helper lemmas about the two conversions -/

theorem natToDigits_ne_G (m : Nat) : ∀ c ∈ natToDigits m, c ≠ 'G' :=
  fun c hc => not_sep_of_digit 'G' (by decide) (natToDigits_bounds m c hc)

theorem natToDigits_ne_underscore (m : Nat) : ∀ c ∈ natToDigits m, c ≠ '_' :=
  fun c hc => not_sep_of_digit '_' (by decide) (natToDigits_bounds m c hc)

theorem parseParts_mkName (bs gs : Nat) (bank pin : Nat) (g : Char)
    (hg : isAsciiLetter g) :
    parseParts ⟨bs, gs⟩ ('G' :: 'P' :: 'I' :: 'O' :: natToDigits bank) (g :: natToDigits pin)
      = some ((bank * bs + ((pyUpper g).toNat - 65) * gs + pin : Nat) : Int) := by
  have h65 := pyUpper_letter hg
  unfold parseParts
  rw [dropGPIOall_gpio, dropGPIOall_no_G (natToDigits_ne_G bank), pyInt_natToDigits bank]
  dsimp only
  rw [pyInt_natToDigits pin]
  dsimp only
  congr 1
  push_cast [Nat.cast_sub h65.1]
  ring

theorem name_to_number_mkName (bs gs : Nat) (bank pin : Nat) (g : Char)
    (hg : isAsciiLetter g) :
    gpio_name_to_number ⟨bs, gs⟩ (mkName bank g pin)
      = .ok ((bank * bs + ((pyUpper g).toNat - 65) * gs + pin : Nat) : Int) := by
  have hgu : ¬ g = '_' := by
    intro he
    rw [he] at hg
    exact absurd hg (by decide)
  have hsep_pre : '_' ∉ ('G' :: 'P' :: 'I' :: 'O' :: natToDigits bank) := by
    simp only [List.mem_cons]
    rintro (h | h | h | h | h)
    · exact absurd h (by decide)
    · exact absurd h (by decide)
    · exact absurd h (by decide)
    · exact absurd h (by decide)
    · exact natToDigits_ne_underscore bank '_' h rfl
  have hsep_post : '_' ∉ g :: natToDigits pin := by
    simp only [List.mem_cons]
    rintro (h | h)
    · exact hgu h.symm
    · exact natToDigits_ne_underscore pin '_' h rfl
  have hsplit : pySplit '_' (mkName bank g pin).data
      = [('G' :: 'P' :: 'I' :: 'O' :: natToDigits bank), g :: natToDigits pin] :=
    pySplit_eq_pair.mpr ⟨rfl, hsep_pre, hsep_post⟩
  unfold gpio_name_to_number
  rw [hsplit]
  dsimp only
  rw [parseParts_mkName bs gs bank pin g hg]

theorem number_to_name_formula (bs gs : Nat) (n : Nat)
    (h : Nat.isValidChar (65 + n % bs / gs)) :
    gpio_number_to_name ⟨bs, gs⟩ (n : Int)
      = .ok (String.mk (('G' :: 'P' :: 'I' :: 'O' :: natToDigits (n / bs))
          ++ '_' :: Char.ofNatAux (65 + n % bs / gs) h
          :: natToDigits (n % bs % gs))) := by
  unfold gpio_number_to_name
  rw [if_neg (Int.not_lt.mpr (Int.natCast_nonneg n))]
  dsimp only
  simp only [Int.toNat_ofNat]
  rw [chr_valid _ h]

/-! ### The claims -/

/-- Claim C1: for every non-negative bank, every group letter `A`-`Z` in either
case, and every non-negative pin (no upper bound, including `pin ≥ groupSize`),
`gpio_name_to_number` applied to `GPIO<bank>_<group><pin>` succeeds and returns
`bank * bankSize + (uppercase(group) - 'A') * groupSize + pin`; in particular,
with the default configuration, `nameToNumber "GPIO1_C1" = 49`. -/
theorem claim_C1 :
    (∀ (bankSize groupSize bank pin : Nat) (g : Char), isAsciiLetter g →
      gpio_name_to_number ⟨bankSize, groupSize⟩ (mkName bank g pin)
        = .ok ((bank * bankSize + ((pyUpper g).toNat - 65) * groupSize + pin : Nat) : Int))
    ∧ gpio_name_to_number defaultCalc "GPIO1_C1" = .ok 49 := by
  refine ⟨?_, rfl⟩
  intro bankSize groupSize bank pin g hg
  exact name_to_number_mkName bankSize groupSize bank pin g hg

/-- Witness for C1: the hypotheses are satisfiable, e.g. at the default sizes
with bank 1, lowercase group letter `c`, pin 1, giving 49. -/
theorem claim_C1_witness :
    isAsciiLetter 'c'
    ∧ gpio_name_to_number ⟨32, 8⟩ (mkName 1 'c' 1) = .ok 49 := by
  refine ⟨by decide, ?_⟩
  exact claim_C1.1 32 8 1 1 'c' (by decide)

/-- Claim C2: for every non-negative integer, `gpio_number_to_name` returns
`GPIO<bank>_<group><pinInGroup>` with `bank = n / bankSize`,
`group = chr(65 + (n % bankSize) / groupSize)` and
`pinInGroup = (n % bankSize) % groupSize` (for positive sizes and a group
codepoint a `Char` can represent); in particular, at the default
configuration, `numberToName 49 = "GPIO1_C1"`. -/
theorem claim_C2 :
    (∀ n : Nat, ∃ g : Char, g.toNat = 65 + n % 32 / 8 ∧
      gpio_number_to_name defaultCalc (n : Int)
        = .ok (String.mk (('G' :: 'P' :: 'I' :: 'O' :: natToDigits (n / 32))
            ++ '_' :: g :: natToDigits (n % 32 % 8))))
    ∧ (∀ bankSize groupSize n : Nat, 0 < bankSize → 0 < groupSize →
      Nat.isValidChar (65 + n % bankSize / groupSize) →
      ∃ g : Char, g.toNat = 65 + n % bankSize / groupSize ∧
        gpio_number_to_name ⟨bankSize, groupSize⟩ (n : Int)
          = .ok (String.mk (('G' :: 'P' :: 'I' :: 'O' :: natToDigits (n / bankSize))
              ++ '_' :: g :: natToDigits (n % bankSize % groupSize))))
    ∧ gpio_number_to_name defaultCalc 49 = .ok "GPIO1_C1" := by
  refine ⟨?_, ?_, rfl⟩
  · intro n
    have h : Nat.isValidChar (65 + n % 32 / 8) := Or.inl (by omega)
    exact ⟨Char.ofNatAux _ h, toNat_ofNatAux _ h, number_to_name_formula 32 8 n h⟩
  · intro bankSize groupSize n _ _ h
    exact ⟨Char.ofNatAux _ h, toNat_ofNatAux _ h, number_to_name_formula bankSize groupSize n h⟩

/-- Witness for C2: the hypotheses are satisfiable at the default sizes with
`n = 49`. -/
theorem claim_C2_witness :
    0 < 32 ∧ 0 < 8 ∧ Nat.isValidChar (65 + 49 % 32 / 8)
    ∧ ∃ g : Char, g.toNat = 65 + 49 % 32 / 8 ∧
        gpio_number_to_name ⟨32, 8⟩ ((49 : Nat) : Int)
          = .ok (String.mk (('G' :: 'P' :: 'I' :: 'O' :: natToDigits (49 / 32))
              ++ '_' :: g :: natToDigits (49 % 32 % 8))) := by
  refine ⟨by decide, by decide, by decide, ?_⟩
  exact claim_C2.2.1 32 8 49 (by decide) (by decide) (by decide)

/-- Claim C3: with the default configuration, for every non-negative integer
`N`, `numberToName N` succeeds and `nameToNumber` of its output returns `N`. -/
theorem claim_C3 (N : Nat) :
    (gpio_number_to_name defaultCalc (N : Int)).bind (gpio_name_to_number defaultCalc)
      = .ok (N : Int) := by
  have hvalid : Nat.isValidChar (65 + N % 32 / 8) := Or.inl (by omega)
  have hgt := toNat_ofNatAux (65 + N % 32 / 8) hvalid
  have hletter : isAsciiLetter (Char.ofNatAux (65 + N % 32 / 8) hvalid) := by
    unfold isAsciiLetter
    rw [hgt]
    exact Or.inl (by omega)
  have hup : pyUpper (Char.ofNatAux (65 + N % 32 / 8) hvalid)
      = Char.ofNatAux (65 + N % 32 / 8) hvalid := by
    apply pyUpper_of_not_lower
    rw [hgt]
    omega
  show (gpio_number_to_name ⟨32, 8⟩ (N : Int)).bind (gpio_name_to_number ⟨32, 8⟩)
      = .ok (N : Int)
  rw [number_to_name_formula 32 8 N hvalid]
  show gpio_name_to_number ⟨32, 8⟩
      (mkName (N / 32) (Char.ofNatAux (65 + N % 32 / 8) hvalid) (N % 32 % 8))
      = .ok (N : Int)
  rw [name_to_number_mkName 32 8 (N / 32) (N % 32 % 8) _ hletter, hup, hgt]
  have hval : N / 32 * 32 + (65 + N % 32 / 8 - 65) * 8 + N % 32 % 8 = N := by omega
  rw [hval]

/-- Counterexample to C4 as stated: the group letter `E` is allowed by the
claim, but `nameToNumber "GPIO0_E0" = 32` and `numberToName 32 = "GPIO1_A0"`,
so the round trip does not return the original string. -/
theorem claim_C4_counterexample :
    (gpio_name_to_number defaultCalc "GPIO0_E0").bind (gpio_number_to_name defaultCalc)
      = .ok "GPIO1_A0"
    ∧ ("GPIO1_A0" : String) ≠ "GPIO0_E0" := ⟨rfl, by decide⟩

/-- Claim C4 (amended): with the default configuration the round trip
`numberToName (nameToNumber name) = name` holds for names whose group letter is
`A`-`D` (the groups that actually exist when `bankSize/groupSize = 4`) and
whose pin satisfies `0 ≤ pin < groupSize`; for letters `E`-`Z` the group
offset overflows into the bank and the round trip fails. -/
theorem claim_C4 (bank pin : Nat) (g : Char) (hg1 : 65 ≤ g.toNat) (hg2 : g.toNat ≤ 68)
    (hpin : pin < 8) :
    (gpio_name_to_number defaultCalc (mkName bank g pin)).bind (gpio_number_to_name defaultCalc)
      = .ok (mkName bank g pin) := by
  have hletter : isAsciiLetter g := Or.inl (by omega)
  have hup : pyUpper g = g := pyUpper_of_not_lower (by omega)
  show (gpio_name_to_number ⟨32, 8⟩ (mkName bank g pin)).bind (gpio_number_to_name ⟨32, 8⟩)
      = .ok (mkName bank g pin)
  rw [name_to_number_mkName 32 8 bank pin g hletter, hup]
  show gpio_number_to_name ⟨32, 8⟩
      ((bank * 32 + (g.toNat - 65) * 8 + pin : Nat) : Int) = .ok (mkName bank g pin)
  have hvalid : Nat.isValidChar
      (65 + (bank * 32 + (g.toNat - 65) * 8 + pin) % 32 / 8) := Or.inl (by omega)
  rw [number_to_name_formula 32 8 (bank * 32 + (g.toNat - 65) * 8 + pin) hvalid]
  have hchar : Char.ofNatAux
      (65 + (bank * 32 + (g.toNat - 65) * 8 + pin) % 32 / 8) hvalid = g := by
    apply char_eq_of_toNat_eq
    rw [toNat_ofNatAux]
    omega
  have h1 : (bank * 32 + (g.toNat - 65) * 8 + pin) / 32 = bank := by omega
  have h3 : (bank * 32 + (g.toNat - 65) * 8 + pin) % 32 % 8 = pin := by omega
  rw [hchar, h1, h3]
  rfl

/-- Witness for C4 (amended): satisfiable, e.g. bank 1, group `C`, pin 1. -/
theorem claim_C4_witness :
    65 ≤ ('C' : Char).toNat ∧ ('C' : Char).toNat ≤ 68 ∧ 1 < 8
    ∧ (gpio_name_to_number defaultCalc (mkName 1 'C' 1)).bind (gpio_number_to_name defaultCalc)
        = .ok (mkName 1 'C' 1) := by
  refine ⟨by decide, by decide, by decide, ?_⟩
  exact claim_C4 1 1 'C' (by decide) (by decide) (by decide)

/-- Counterexample to C5 as stated: the claim requires `"GPIO1_31"` to fail
with a FormatError, but the code never checks that the group character is a
letter: it accepts the name and returns
`1*32 + (ord('3') - ord('A'))*8 + 1 = -79`. -/
theorem claim_C5_counterexample :
    gpio_name_to_number defaultCalc "GPIO1_31" = .ok (-79) := rfl

/-- Claim C5 (amended): `nameToNumber` fails with a FormatError on
`"GPIOA_3"` (bank not numeric after removing `"GPIO"`) and `"GPIO1C1"` (no
underscore), but accepts `"GPIO1_31"` — the group character is not validated
as a letter — and returns `-79`. -/
theorem claim_C5 :
    gpio_name_to_number defaultCalc "GPIOA_3" = .error (invalidNameMsg "GPIOA_3")
    ∧ gpio_name_to_number defaultCalc "GPIO1C1" = .error (invalidNameMsg "GPIO1C1")
    ∧ gpio_name_to_number defaultCalc "GPIO1_31" = .ok (-79) := ⟨rfl, rfl, rfl⟩

theorem natToDigits_single {m : Nat} (h : m < 10) : natToDigits m = [digitChar m] := by
  unfold natToDigits
  simp only [toBaseDigits]
  rw [if_pos h]

/-- Claim C7: `gpio_number_to_name` and `calculate_gpio_info` fail — with the
exact message `"GPIO number must be a positive integer."` — if and only if the
argument is negative; zero and every positive integer produce a result. -/
theorem claim_C7 (n : Int) :
    ((gpio_number_to_name defaultCalc n).isOk ↔ 0 ≤ n)
    ∧ (gpio_number_to_name defaultCalc n = .error negativeMsg ↔ n < 0)
    ∧ ((calculate_gpio_info defaultCalc n).isOk ↔ 0 ≤ n)
    ∧ (calculate_gpio_info defaultCalc n = .error negativeMsg ↔ n < 0) := by
  by_cases hn : n < 0
  · have h1 : gpio_number_to_name defaultCalc n = .error negativeMsg := by
      unfold gpio_number_to_name
      rw [if_pos hn]
    have h2 : calculate_gpio_info defaultCalc n = .error negativeMsg := by
      unfold calculate_gpio_info
      rw [if_pos hn]
    refine ⟨?_, ?_, ?_, ?_⟩
    · rw [h1]
      constructor
      · intro h
        simp [Except.isOk, Except.toBool] at h
      · intro h
        omega
    · rw [h1]
      exact ⟨fun _ => hn, fun _ => rfl⟩
    · rw [h2]
      constructor
      · intro h
        simp [Except.isOk, Except.toBool] at h
      · intro h
        omega
    · rw [h2]
      exact ⟨fun _ => hn, fun _ => rfl⟩
  · obtain ⟨m, rfl⟩ := Int.eq_ofNat_of_zero_le (Int.not_lt.mp hn)
    have hvalid : Nat.isValidChar (65 + m % 32 / 8) := Or.inl (by omega)
    have h1 : gpio_number_to_name defaultCalc ((m : Nat) : Int)
        = .ok (String.mk (('G' :: 'P' :: 'I' :: 'O' :: natToDigits (m / 32))
            ++ '_' :: Char.ofNatAux (65 + m % 32 / 8) hvalid :: natToDigits (m % 32 % 8))) :=
      number_to_name_formula 32 8 m hvalid
    have h2 : calculate_gpio_info defaultCalc ((m : Nat) : Int)
        = .ok { gpio_number := m, gpio_bank := m / 32, pin_number := m % 32,
                register_offset_hex := fmt08X (m * 4), register_offset_dec := m * 4 } := by
      unfold calculate_gpio_info
      rw [if_neg (Int.not_lt.mpr (Int.natCast_nonneg m))]
      rfl
    refine ⟨?_, ?_, ?_, ?_⟩
    · rw [h1]
      exact ⟨fun _ => Int.natCast_nonneg m, fun _ => rfl⟩
    · rw [h1]
      constructor
      · intro h
        exact Except.noConfusion h
      · intro h
        omega
    · rw [h2]
      exact ⟨fun _ => Int.natCast_nonneg m, fun _ => rfl⟩
    · rw [h2]
      constructor
      · intro h
        exact Except.noConfusion h
      · intro h
        omega

/-- Claim C8: for every non-negative integer `n`, `calculate_gpio_info`
returns the record with bank `n / bankSize`, pin `n % bankSize` and register
offset `n * 4` (with its zero-padded hex rendering); in particular at the
default configuration `calculateInfo 49` gives bank 1, pin 17, offset 196,
hex `"0x000000C4"`. -/
theorem claim_C8 :
    (∀ n : Nat, calculate_gpio_info defaultCalc (n : Int)
        = .ok { gpio_number := n, gpio_bank := n / 32, pin_number := n % 32,
                register_offset_hex := fmt08X (n * 4), register_offset_dec := n * 4 })
    ∧ (∀ bankSize groupSize n : Nat, 0 < bankSize →
      calculate_gpio_info ⟨bankSize, groupSize⟩ (n : Int)
        = .ok { gpio_number := n, gpio_bank := n / bankSize, pin_number := n % bankSize,
                register_offset_hex := fmt08X (n * 4), register_offset_dec := n * 4 })
    ∧ calculate_gpio_info defaultCalc 49
        = .ok { gpio_number := 49, gpio_bank := 1, pin_number := 17,
                register_offset_hex := "0x000000C4", register_offset_dec := 196 } := by
  refine ⟨?_, ?_, rfl⟩
  · intro n
    unfold calculate_gpio_info
    rw [if_neg (Int.not_lt.mpr (Int.natCast_nonneg n))]
    rfl
  · intro bankSize groupSize n _
    unfold calculate_gpio_info
    rw [if_neg (Int.not_lt.mpr (Int.natCast_nonneg n))]
    rfl

/-- Witness for C8: satisfiable at the default sizes with `n = 49`. -/
theorem claim_C8_witness :
    0 < 32 ∧ calculate_gpio_info ⟨32, 8⟩ ((49 : Nat) : Int)
      = .ok { gpio_number := 49, gpio_bank := 49 / 32, pin_number := 49 % 32,
              register_offset_hex := fmt08X (49 * 4), register_offset_dec := 49 * 4 } :=
  ⟨by decide, claim_C8.2.1 32 8 49 (by decide)⟩

/-- Counterexample to C9 as stated: at `number = 2^30` the register offset is
`2^32 = 0x100000000`, whose hex field has nine digits after `"0x"` — the
`08X` format zero-pads to a minimum of eight digits but never truncates, so
the field is not always exactly eight digits. -/
theorem claim_C9_counterexample :
    calculate_gpio_info defaultCalc ((1073741824 : Nat) : Int)
      = .ok { gpio_number := 1073741824, gpio_bank := 33554432, pin_number := 0,
              register_offset_hex := "0x100000000", register_offset_dec := 4294967296 }
    ∧ ("0x100000000" : String).data.length ≠ 2 + 8 := ⟨rfl, by decide⟩

/-- Claim C9 (amended): for every `n` with `n * 4 < 16^8`, the hex field of
`calculate_gpio_info` at the default configuration is `"0x"` followed by
exactly 8 uppercase hex digits (zero-padded) whose value is `n * 4`; larger
offsets are printed in full, with more than 8 digits. -/
theorem claim_C9 (n : Nat) (h : n * 4 < 16 ^ 8) :
    ∃ ds : List Char,
      calculate_gpio_info defaultCalc (n : Int)
        = .ok { gpio_number := n, gpio_bank := n / 32, pin_number := n % 32,
                register_offset_hex := String.mk ('0' :: 'x' :: ds),
                register_offset_dec := n * 4 }
      ∧ ds.length = 8
      ∧ (∀ c ∈ ds, isUpperHexDigit c)
      ∧ hexVal ds = n * 4 := by
  refine ⟨List.replicate (8 - (natToHexDigits (n * 4)).length) '0' ++ natToHexDigits (n * 4),
    ?_, ?_, ?_, ?_⟩
  · unfold calculate_gpio_info
    rw [if_neg (Int.not_lt.mpr (Int.natCast_nonneg n))]
    rfl
  · have hlen := natToHexDigits_len_le (n * 4) 8 (by omega) h
    simp only [List.length_append, List.length_replicate]
    omega
  · intro c hc
    rcases List.mem_append.mp hc with hc | hc
    · rw [List.eq_of_mem_replicate hc]
      exact (by decide : isUpperHexDigit '0')
    · exact natToHexDigits_mem (n * 4) c hc
  · rw [hexVal_replicate_zero]
    exact hexVal_natToHexDigits (n * 4)

/-- Witness for C9 (amended): satisfiable at `n = 49`. -/
theorem claim_C9_witness :
    49 * 4 < 16 ^ 8
    ∧ ∃ ds : List Char,
        calculate_gpio_info defaultCalc ((49 : Nat) : Int)
          = .ok { gpio_number := 49, gpio_bank := 49 / 32, pin_number := 49 % 32,
                  register_offset_hex := String.mk ('0' :: 'x' :: ds),
                  register_offset_dec := 49 * 4 }
        ∧ ds.length = 8
        ∧ (∀ c ∈ ds, isUpperHexDigit c)
        ∧ hexVal ds = 49 * 4 :=
  ⟨by decide, claim_C9 49 (by decide)⟩

/-- Claim C10: with the default configuration every output of
`gpio_number_to_name` is a canonical name: the group character is between
`'A'` and `'D'` and the pin is a single digit between 0 and 7. -/
theorem claim_C10 (n : Nat) :
    ∃ g : Char,
      gpio_number_to_name defaultCalc (n : Int)
        = .ok (String.mk (('G' :: 'P' :: 'I' :: 'O' :: natToDigits (n / 32))
            ++ '_' :: g :: [digitChar (n % 32 % 8)]))
      ∧ 65 ≤ g.toNat ∧ g.toNat ≤ 68 ∧ n % 32 % 8 < 8 := by
  have hvalid : Nat.isValidChar (65 + n % 32 / 8) := Or.inl (by omega)
  refine ⟨Char.ofNatAux _ hvalid, ?_, ?_, ?_, by omega⟩
  · have h := number_to_name_formula 32 8 n hvalid
    rw [natToDigits_single (by omega : n % 32 % 8 < 10)] at h
    exact h
  · rw [toNat_ofNatAux]
    omega
  · rw [toNat_ofNatAux]
    omega

theorem parseParts_some_iff (cfg : RockchipGPIOCalculator) (a b : List Char) :
    (∃ v, parseParts cfg a b = some v)
      ↔ ((pyInt (dropGPIOall a)).isSome ∧ b ≠ [] ∧ (pyInt b.tail).isSome) := by
  unfold parseParts
  cases h1 : pyInt (dropGPIOall a) with
  | none => simp
  | some bank =>
    cases b with
    | nil => simp
    | cons g rest =>
      cases h2 : pyInt rest with
      | none => simp [h2]
      | some pin => simp [h2]

theorem name_to_number_ok_iff (cfg : RockchipGPIOCalculator) (s : String) :
    (∃ v, gpio_name_to_number cfg s = .ok v) ↔ acceptsNameShape s := by
  have haccept : ∀ a b, pySplit '_' s.data = [a, b] →
      (acceptsNameShape s
        ↔ ((pyInt (dropGPIOall a)).isSome ∧ b ≠ [] ∧ (pyInt b.tail).isSome)) := by
    intro a b hsp
    constructor
    · rintro ⟨b', p', hdec, hb', hp', h1, h2, h3⟩
      have hps := pySplit_eq_pair.mpr ⟨hdec, hb', hp'⟩
      rw [hsp] at hps
      obtain ⟨h4, h5⟩ := (List.cons.injEq _ _ _ _).mp hps
      obtain ⟨h6, -⟩ := (List.cons.injEq _ _ _ _).mp h5
      subst h4
      subst h6
      exact ⟨h1, h2, h3⟩
    · rintro ⟨h1, h2, h3⟩
      obtain ⟨hdec, hb, hp⟩ := pySplit_eq_pair.mp hsp
      exact ⟨a, b, hdec, hb, hp, h1, h2, h3⟩
  cases hsp : pySplit '_' s.data with
  | nil => exact absurd hsp (pySplit_ne_nil '_' s.data)
  | cons a t =>
    cases t with
    | nil =>
      have hres : gpio_name_to_number cfg s = .error (invalidNameMsg s) := by
        unfold gpio_name_to_number
        rw [hsp]
      constructor
      · rintro ⟨v, hv⟩
        rw [hres] at hv
        exact Except.noConfusion hv
      · rintro ⟨b', p', hdec, hb', hp', -, -, -⟩
        have hps := pySplit_eq_pair.mpr ⟨hdec, hb', hp'⟩
        rw [hsp] at hps
        exact absurd hps (by simp)
    | cons b t2 =>
      cases t2 with
      | nil =>
        rw [haccept a b hsp]
        constructor
        · rintro ⟨v, hv⟩
          unfold gpio_name_to_number at hv
          rw [hsp] at hv
          dsimp only at hv
          cases hpp : parseParts cfg a b with
          | none =>
            rw [hpp] at hv
            dsimp only at hv
            exact Except.noConfusion hv
          | some v0 =>
            exact (parseParts_some_iff cfg a b).mp ⟨v0, hpp⟩
        · intro h123
          obtain ⟨v0, hv0⟩ := (parseParts_some_iff cfg a b).mpr h123
          refine ⟨v0, ?_⟩
          unfold gpio_name_to_number
          rw [hsp]
          dsimp only
          rw [hv0]
      | cons c t3 =>
        have hres : gpio_name_to_number cfg s = .error (invalidNameMsg s) := by
          unfold gpio_name_to_number
          rw [hsp]
        constructor
        · rintro ⟨v, hv⟩
          rw [hres] at hv
          exact Except.noConfusion hv
        · rintro ⟨b', p', hdec, hb', hp', -, -, -⟩
          have hps := pySplit_eq_pair.mpr ⟨hdec, hb', hp'⟩
          rw [hsp] at hps
          obtain ⟨-, h5⟩ := (List.cons.injEq _ _ _ _).mp hps
          obtain ⟨-, h7⟩ := (List.cons.injEq _ _ _ _).mp h5
          exact absurd h7 (by simp)

theorem name_to_number_error_of_not_accepted (cfg : RockchipGPIOCalculator) (s : String)
    (h : ¬ acceptsNameShape s) :
    gpio_name_to_number cfg s = .error (invalidNameMsg s) := by
  cases hok : gpio_name_to_number cfg s with
  | ok v => exact absurd ((name_to_number_ok_iff cfg s).mp ⟨v, hok⟩) h
  | error e =>
    suffices he : e = invalidNameMsg s by rw [he]
    unfold gpio_name_to_number at hok
    cases hsp : pySplit '_' s.data with
    | nil => exact absurd hsp (pySplit_ne_nil '_' s.data)
    | cons a t =>
      cases t with
      | nil =>
        rw [hsp] at hok
        dsimp only at hok
        exact ((Except.error.injEq _ _).mp hok).symm
      | cons b t2 =>
        cases t2 with
        | nil =>
          rw [hsp] at hok
          dsimp only at hok
          cases hpp : parseParts cfg a b with
          | some v0 =>
            rw [hpp] at hok
            dsimp only at hok
            exact Except.noConfusion hok
          | none =>
            rw [hpp] at hok
            dsimp only at hok
            exact ((Except.error.injEq _ _).mp hok).symm
        | cons c t3 =>
          rw [hsp] at hok
          dsimp only at hok
          exact ((Except.error.injEq _ _).mp hok).symm

/-- Counterexample to C6 as stated: `"1GPIO_C1"` does not start with the
literal `"GPIO"`, yet the parser accepts it (the source removes every
occurrence of `"GPIO"` from the bank part, so `"1GPIO"` becomes `"1"`) and
returns 49. -/
theorem claim_C6_counterexample :
    gpio_name_to_number defaultCalc "1GPIO_C1" = .ok 49 := rfl

/-- Claim C6 (amended): for every ASCII string, `gpio_name_to_number` succeeds
exactly on the strings of the shape `acceptsNameShape` — exactly one
underscore, the part before it parses as a Python integer after *removing
every occurrence* of `"GPIO"` (which therefore need not be a prefix), the
part after it is non-empty with an *arbitrary* group character followed by a
Python integer — and every other string fails with the FormatError message of
the source.  (ASCII is assumed because the embedding models Python's `int`
and `str.upper` only on ASCII characters.) -/
theorem claim_C6 (s : String) (_hascii : isAllAscii s) :
    ((∃ v, gpio_name_to_number defaultCalc s = .ok v) ↔ acceptsNameShape s)
    ∧ (¬ acceptsNameShape s
        → gpio_name_to_number defaultCalc s = .error (invalidNameMsg s)) :=
  ⟨name_to_number_ok_iff defaultCalc s, name_to_number_error_of_not_accepted defaultCalc s⟩

/-- Witness for C6 (amended): instantiated at the accepted string
`"1GPIO_C1"`. -/
theorem claim_C6_witness :
    isAllAscii "1GPIO_C1"
    ∧ (((∃ v, gpio_name_to_number defaultCalc "1GPIO_C1" = .ok v)
          ↔ acceptsNameShape "1GPIO_C1")
       ∧ (¬ acceptsNameShape "1GPIO_C1"
          → gpio_name_to_number defaultCalc "1GPIO_C1"
              = .error (invalidNameMsg "1GPIO_C1"))) :=
  ⟨by decide, claim_C6 "1GPIO_C1" (by decide)⟩

/-- The spec's remaining listed test vector: `nameToNumber("GPIO0_A3") == 3`. -/
theorem name_to_number_GPIO0_A3 : gpio_name_to_number defaultCalc "GPIO0_A3" = .ok 3 := rfl

/-- The spec's remaining listed test vector: `numberToName(-1)` raises RangeError. -/
theorem number_to_name_neg_one : gpio_number_to_name defaultCalc (-1) = .error negativeMsg := rfl
